import Mathlib

/-!
Verification of the linksnap utility core: the input validators
(`src/utils/validation.ts` and the duplicated copies in `src/utils/index.ts`),
the `RateLimiter`, the `withRetry` helper, and the extractive summarizer plus
error-response plumbing of the `generate-summary` edge function.

Strings are embedded as `List Char` (JavaScript strings are sequences of
code units; every claim here is about character sequences, lengths and
prefixes, which `List Char` models directly).
-/

namespace LinkSnap

/-- JS strings are modelled as lists of characters. -/
abbrev Str := List Char

/-- Coerce a Lean string literal into the model. -/
def str (s : String) : Str := s.toList

/-- The whitespace class used by `String.prototype.trim` and the `\s` regex
class, restricted to the ASCII whitespace characters. -/
def isWS (c : Char) : Bool :=
  c = ' ' || c = '\t' || c = '\n' || c = '\r' || c = '\x0b' || c = '\x0c'

/-- JS `String.prototype.trim`: drop whitespace from both ends. -/
def jsTrim (s : Str) : Str :=
  ((s.dropWhile isWS).reverse.dropWhile isWS).reverse

/-- ASCII lower-casing of a single character (JS `toLowerCase` on the
characters that occur in the checks being modelled). -/
def lowerChar (c : Char) : Char :=
  if 'A' ≤ c ∧ c ≤ 'Z' then Char.ofNat (c.toNat + 32) else c

/-- ASCII lower-casing of a string. -/
def lowerStr (s : Str) : Str := s.map lowerChar

/-- The test `leadsWith p s` is true when `p` occurs at the start of `s`
(the `^...` anchor of the regexes / `startsWith`). -/
def leadsWith : Str → Str → Bool
  | [], _ => true
  | _ :: _, [] => false
  | a :: p, b :: s => (a == b) && leadsWith p s

/-- The test `containsStr pat s` is true when `pat` occurs somewhere inside `s`
(JS `String.prototype.includes`). -/
def containsStr (pat : Str) : Str → Bool
  | [] => leadsWith pat []
  | c :: rest => leadsWith pat (c :: rest) || containsStr pat rest

/-- The result record returned by every validator
(`ValidationResult` in `src/utils/validation.ts`). -/
structure ValidationResult where
  isValid : Bool
  error : Option Str
  sanitized : Option Str
deriving DecidableEq, Repr

/-- The two fields of the platform `URL` object that `validateUrl` reads. -/
structure URLObj where
  protocol : Str
  hostname : Str
deriving DecidableEq, Repr

/-- A URL parser: `none` models the `URL` constructor throwing.  The WHATWG
parser itself is a platform builtin, outside the repository, so `validateUrl`
is parameterised over it; `modelParse` below is a concrete stand-in. -/
abbrev URLParser := Str → Option URLObj

/-- The regex test `/^https?:\/\//i` in `validateUrl`. -/
def hasHttpScheme (s : Str) : Bool :=
  leadsWith (str "http://") (lowerStr s) || leadsWith (str "https://") (lowerStr s)

/-- The normalization step of `validateUrl`: prepend `https://` when the
input does not already start with `http://` or `https://` (case-insensitive). -/
def normalizeUrl (t : Str) : Str :=
  if hasHttpScheme t then t else str "https://" ++ t

/-- The regex `/^172\.(1[6-9]|2[0-9]|3[0-1])\./` from the private-host patterns. -/
def is172Private (h : Str) : Bool :=
  (List.range 16).any (fun i => leadsWith (str ("172." ++ toString (16 + i) ++ ".")) h)

/-- The `privatePatterns.some(...)` check of `validateUrl` applied to the
lower-cased hostname. -/
def isPrivateHost (h : Str) : Bool :=
  h == str "localhost" || h == str "127.0.0.1" || h == str "::1" ||
  leadsWith (str "192.168.") h || leadsWith (str "10.") h || is172Private h

/-- The part of `validateUrl` that runs on the trimmed input (everything from
the length checks onward in `src/utils/validation.ts`).  `prod` models
`process.env.NODE_ENV === 'production'`. -/
def validateUrlCore (P : URLParser) (prod : Bool) (t : Str) : ValidationResult :=
  if t.length = 0 then
    ⟨false, some (str "URL cannot be empty"), none⟩
  else if 2048 < t.length then
    ⟨false, some (str "URL is too long (max 2048 characters)"), none⟩
  else
    match P (normalizeUrl t) with
    | none => ⟨false, some (str "Invalid URL format"), none⟩
    | some uo =>
      if uo.protocol ≠ str "http:" ∧ uo.protocol ≠ str "https:" then
        ⟨false, some (str "Only HTTP and HTTPS URLs are allowed"), none⟩
      else if isPrivateHost (lowerStr uo.hostname) && prod then
        ⟨false, some (str "Private/local URLs are not allowed"), none⟩
      else
        ⟨true, none, some (normalizeUrl t)⟩

/-- The function `validateUrl` from `src/utils/validation.ts` (the copy in
`src/utils/index.ts` is behaviourally identical).  A `none` input models a
non-string argument; the empty string is caught by the same `!url` test. -/
def validateUrl (P : URLParser) (prod : Bool) (url : Option Str) : ValidationResult :=
  match url with
  | none => ⟨false, some (str "URL is required"), none⟩
  | some u =>
    if u = [] then ⟨false, some (str "URL is required"), none⟩
    else validateUrlCore P prod (jsTrim u)

/-- ASCII letter test for scheme characters. -/
def isAsciiAlpha (c : Char) : Bool :=
  (decide ('a' ≤ c) && decide (c ≤ 'z')) || (decide ('A' ≤ c) && decide (c ≤ 'Z'))

/-- A character allowed inside a hostname (anything up to the authority
delimiters). -/
def isHostChar (c : Char) : Bool :=
  c != '/' && c != ':' && c != '?' && c != '#'

/-- Modelled from the spec: the WHATWG `URL` constructor used by
`validateUrl` is a platform builtin that is not part of this repository.
This stand-in parses `scheme://host...`: a nonempty alphabetic scheme before
`://`, then a nonempty hostname running up to the first `/`, `:`, `?` or `#`.
It agrees with the real parser on every concrete input used below. -/
def modelParse (s : Str) : Option URLObj :=
  let scheme := s.takeWhile (fun c => c != ':')
  if scheme = [] then none
  else if !(scheme.all isAsciiAlpha) then none
  else
    match s.drop scheme.length with
    | ':' :: '/' :: '/' :: r =>
      let host := r.takeWhile isHostChar
      if host = [] then none
      else some ⟨lowerStr scheme ++ [':'], host⟩
    | _ => none

/-- The function `validateAndSanitizeText` from `src/utils/validation.ts` (the variant
imported by `AddBookmarkForm`, `useBookmarks` and the test suite).  The
DOMPurify sanitizer is an external library, so it is a parameter.  A `none`
input models a non-string argument; `!text` also catches the empty string. -/
def validateAndSanitizeText (sanitize : Str → Str) (maxLength : Nat)
    (text : Option Str) : ValidationResult :=
  match text with
  | none => ⟨true, none, some []⟩
  | some t =>
    if t = [] then ⟨true, none, some []⟩
    else if maxLength < t.length then
      ⟨false, some (str "Text is too long (max " ++ str (toString maxLength) ++ str " characters)"), none⟩
    else
      ⟨true, none, some (sanitize (jsTrim t))⟩

/-- The other `validateAndSanitizeText`, from `src/utils/index.ts`
lines 113-135: it rejects empty and whitespace-only input instead of
accepting it.  Kept for comparison with its sibling above. -/
def validateAndSanitizeTextIndex (sanitize : Str → Str) (maxLength : Nat)
    (text : Option Str) : ValidationResult :=
  match text with
  | none => ⟨false, some (str "Text is required"), none⟩
  | some t =>
    if t = [] then ⟨false, some (str "Text is required"), none⟩
    else if (jsTrim t).length = 0 then ⟨false, some (str "Text cannot be empty"), none⟩
    else if maxLength < t.length then
      ⟨false, some (str "Text is too long (max " ++ str (toString maxLength) ++ str " characters)"), none⟩
    else
      ⟨true, none, some (sanitize (jsTrim t))⟩

/-! ### `withRetry` (`src/utils/index.ts` lines 241-263)

The operation is modelled as a map from the 1-based attempt number to the
result of that invocation; the delay between attempts does not affect the
observable outcome or the invocation count.  The JS loop runs
`for (let attempt = 1; attempt <= maxRetries; attempt++)`, so `maxRetries`
is kept as an `Int` (it can be zero or negative) and the loop body executes
exactly `maxRetries.toNat` times unless it returns or throws earlier. -/

/-- Possible outcomes of `withRetry`: a returned value, a re-raised error
that the operation produced, or the trailing `throw lastError` firing with
`lastError` still `undefined` (no attempt ever ran). -/
inductive RetryOutcome (ε α : Type) where
  | ok (value : α)
  | raised (err : ε)
  | raisedUndefined
deriving DecidableEq, Repr

/-- The retry loop.  `fuel` is the number of loop iterations still permitted
by the condition `attempt <= maxRetries`; the second component of the result
counts how many times `fn` was invoked. -/
def withRetryGo (fn : Nat → Except ε α) (maxRetries : Int) :
    Nat → Nat → RetryOutcome ε α × Nat
  | _, 0 => (RetryOutcome.raisedUndefined, 0)
  | attempt, fuel + 1 =>
    match fn attempt with
    | Except.ok v => (RetryOutcome.ok v, 1)
    | Except.error e =>
      if (attempt : Int) = maxRetries then (RetryOutcome.raised e, 1)
      else
        let r := withRetryGo fn maxRetries (attempt + 1) fuel
        (r.1, r.2 + 1)

/-- The wrapper `withRetry(fn, maxRetries, delay)`: attempts start at 1 and the loop
condition admits exactly `maxRetries.toNat` iterations. -/
def withRetry (fn : Nat → Except ε α) (maxRetries : Int) : RetryOutcome ε α × Nat :=
  withRetryGo fn maxRetries 1 maxRetries.toNat

/-! ### `RateLimiter` (`src/utils/validation.ts` lines 532-558)

Timestamps come from `Date.now()`, modelled as explicit `Int` arguments to
each call. -/

/-- The limiter state: construction parameters plus the `attempts` map;
a key that was never touched maps to `[]` (`this.attempts.get(key) || []`). -/
structure RateLimiter where
  maxAttempts : Nat
  windowMs : Int
  attempts : String → List Int

/-- A fresh limiter (`new RateLimiter(maxAttempts, windowMs)`). -/
def mkRateLimiter (maxAttempts : Nat) (windowMs : Int) : RateLimiter :=
  ⟨maxAttempts, windowMs, fun _ => []⟩

/-- The method `isAllowed(key)` at time `now`: filters the key's timestamps down to
those with `now - time < windowMs`, stores the filtered list back, and
returns whether their count is below `maxAttempts`. -/
def RateLimiter.isAllowed (rl : RateLimiter) (key : String) (now : Int) :
    Bool × RateLimiter :=
  let validAttempts := (rl.attempts key).filter (fun time => now - time < rl.windowMs)
  (decide (validAttempts.length < rl.maxAttempts),
   { rl with attempts := fun k => if k = key then validAttempts else rl.attempts k })

/-- The method `recordAttempt(key)` at time `now`: appends `now` to the key's list. -/
def RateLimiter.recordAttempt (rl : RateLimiter) (key : String) (now : Int) :
    RateLimiter :=
  { rl with attempts := fun k => if k = key then rl.attempts key ++ [now] else rl.attempts k }

/-- One call in a client session: either `recordAttempt` or `isAllowed`,
with the value of `Date.now()` at that moment. -/
inductive RLEvent where
  | record (key : String) (time : Int)
  | check (key : String) (time : Int)
deriving DecidableEq, Repr

/-- The timestamp of an event. -/
def RLEvent.time : RLEvent → Int
  | RLEvent.record _ t => t
  | RLEvent.check _ t => t

/-- Whether an event is an `isAllowed` call. -/
def RLEvent.isCheck : RLEvent → Bool
  | RLEvent.record _ _ => false
  | RLEvent.check _ _ => true

/-- Run a sequence of calls against a limiter (the boolean results of the
intermediate `isAllowed` calls are discarded; only their purging side effect
remains). -/
def runEvents (rl : RateLimiter) : List RLEvent → RateLimiter
  | [] => rl
  | RLEvent.record k t :: rest => runEvents (rl.recordAttempt k t) rest
  | RLEvent.check k t :: rest => runEvents (rl.isAllowed k t).2 rest

/-- The timestamps of the `recordAttempt` calls made for `key`, in order. -/
def recordedTimes (key : String) : List RLEvent → List Int
  | [] => []
  | RLEvent.record k t :: rest =>
    if k = key then t :: recordedTimes key rest else recordedTimes key rest
  | RLEvent.check _ _ :: rest => recordedTimes key rest

/-! ### The summarizer (`supabase/functions/generate-summary/index.ts`) -/

/-- The constant `MAX_CONTENT_LENGTH`. -/
def MAX_CONTENT_LENGTH : Nat := 10000

/-- The constant `SUMMARY_MAX_LENGTH`. -/
def SUMMARY_MAX_LENGTH : Nat := 500

/-- The step `content.replace(/\s+/g, ' ')`: collapse each maximal whitespace run to
a single space.  The flag records whether the previous character was part of
a run already replaced. -/
def collapseWSAux : Bool → Str → Str
  | _, [] => []
  | prevWS, c :: rest =>
    if isWS c then
      if prevWS then collapseWSAux true rest
      else ' ' :: collapseWSAux true rest
    else c :: collapseWSAux false rest

/-- The step `content.replace(/\s+/g, ' ')`. -/
def collapseWS (s : Str) : Str := collapseWSAux false s

/-- Membership in the allow-list `[\w\s.,!?;:()-]` (`\w` is
`[A-Za-z0-9_]`). -/
def allowedChar (c : Char) : Bool :=
  ('a' ≤ c && c ≤ 'z') || ('A' ≤ c && c ≤ 'Z') || ('0' ≤ c && c ≤ '9') ||
  c = '_' || isWS c ||
  c = '.' || c = ',' || c = '!' || c = '?' || c = ';' || c = ':' ||
  c = '(' || c = ')' || c = '-'

/-- The cleaned, truncated working content: collapse whitespace, strip
disallowed characters, trim, then cut to `MAX_CONTENT_LENGTH`. -/
def cleanOf (content : Str) : Str :=
  let c := jsTrim ((collapseWS content).filter allowedChar)
  if MAX_CONTENT_LENGTH < c.length then c.take MAX_CONTENT_LENGTH else c

/-- Whether a character terminates a sentence (the class `[.!?]`). -/
def isSentenceEnder (c : Char) : Bool := c = '.' || c = '!' || c = '?'

/-- Split at sentence-terminating characters.  The JS code splits on the
regex `[.!?]+`; splitting at each single terminator instead only introduces
extra empty segments between consecutive terminators, and every empty
segment is discarded by the `length > 10` filter below, so the two agree
after filtering. -/
def splitSentencesAux : Str → Str → List Str
  | [], acc => [acc.reverse]
  | c :: rest, acc =>
    if isSentenceEnder c then acc.reverse :: splitSentencesAux rest []
    else splitSentencesAux rest (c :: acc)

/-- The pipeline `cleanContent.split(/[.!?]+/).map(s => s.trim()).filter(s => s.length > 10)`
applied to the cleaned content of `content`. -/
def sentencesOf (content : Str) : List Str :=
  ((splitSentencesAux (cleanOf content) []).map jsTrim).filter (fun s => 10 < s.length)

/-- The greedy accumulation loop of `generateSummary`: grow the summary one
sentence at a time, stopping when a candidate would exceed
`SUMMARY_MAX_LENGTH` (and something is already accumulated) or after 3
sentences. -/
def accumulateSentences : List Str → Str → Nat → Str
  | [], summary, _ => summary
  | s :: rest, summary, count =>
    let potential := if summary = [] then s else summary ++ str ". " ++ s
    if SUMMARY_MAX_LENGTH < potential.length ∧ summary ≠ [] then summary
    else if 3 ≤ count + 1 then potential
    else accumulateSentences rest potential (count + 1)

/-- The final `summary + (summary.endsWith('.') ? '' : '.')`. -/
def finalizeSummary (summary : Str) : Str :=
  summary ++ (if summary.getLast? = some '.' then [] else ['.'])

deriving instance DecidableEq for Except

/-- The function `generateSummary(content)`; `Except.error` models a thrown `Error` and
carries its message. -/
def generateSummary (content : Str) : Except Str Str :=
  if content = [] then Except.error (str "No content to summarize")
  else
    let cleaned := jsTrim ((collapseWS content).filter allowedChar)
    if cleaned = [] then Except.error (str "No meaningful content found after cleaning")
    else
      let clean := cleanOf content
      let sentences := sentencesOf content
      if sentences = [] then
        Except.ok (clean.take (min 200 clean.length) ++ str "...")
      else
        Except.ok (finalizeSummary (accumulateSentences sentences [] 0))

/-! ### The edge-function HTTP surface (`Deno.serve` handler)

The handler's `try` block performs IO (database reads, the content fetch);
its outcome is abstracted as either a produced summary or the message of the
`Error` it threw.  The method gate and the response construction are
translated from the source (lines 112-129 and 236-272). -/

/-- A response body as far as the claims observe it: the `error` field and
whether a `timestamp` field is present. -/
structure ErrorBody where
  message : Str
  hasTimestamp : Bool
deriving DecidableEq, Repr

/-- An HTTP response: status plus the error body, if any (`none` for the
OPTIONS preflight and the success response, whose bodies carry no `error`). -/
structure HttpResponse where
  status : Nat
  body : Option ErrorBody
deriving DecidableEq, Repr

/-- What the `try` block of the handler came to: a summary, or a thrown
error's message. -/
inductive HandlerOutcome where
  | success (summary : Str)
  | failure (message : Str)
deriving DecidableEq, Repr

/-- The status derivation in the `catch` block. -/
def statusForError (msg : Str) : Nat :=
  if containsStr (str "not found") msg then 404
  else if containsStr (str "not allowed") msg then 405
  else if containsStr (str "Invalid") msg then 400
  else 500

/-- The handler: OPTIONS preflight, the POST-only gate (whose 405 body has
an `error` field but no `timestamp`), then the outcome of the `try` block —
200 on success, and on failure the status mapping with an
`{ error, timestamp }` body. -/
def handleRequest (method : String) (outcome : HandlerOutcome) : HttpResponse :=
  if method = "OPTIONS" then ⟨200, none⟩
  else if method ≠ "POST" then ⟨405, some ⟨str "Method not allowed", false⟩⟩
  else
    match outcome with
    | HandlerOutcome.success _ => ⟨200, none⟩
    | HandlerOutcome.failure msg => ⟨statusForError msg, some ⟨msg, true⟩⟩

/-! ## Helper lemmas -/

/-- Whatever `dropWhile` leaves starts with an element that fails the
predicate. -/
theorem head_dropWhile_false {α} (p : α → Bool) :
    ∀ (l : List α) (a : α), (l.dropWhile p).head? = some a → p a = false := by
  intro l
  induction l with
  | nil => intro a h; simp [List.dropWhile] at h
  | cons b t ih =>
    intro a h
    rw [List.dropWhile_cons] at h
    by_cases hb : p b
    · exact ih a (by simpa [hb] using h)
    · simp [hb] at h
      rw [← h]
      simpa using hb

/-- Since `dropWhile` returns a suffix, a nonempty result has the same last
element as the input. -/
theorem getLast_dropWhile {α} (p : α → Bool) :
    ∀ (l : List α), l.dropWhile p ≠ [] → (l.dropWhile p).getLast? = l.getLast? := by
  intro l
  induction l with
  | nil => simp [List.dropWhile]
  | cons b t ih =>
    intro h
    rw [List.dropWhile_cons] at h ⊢
    by_cases hb : p b
    · have ht : t.dropWhile p ≠ [] := by simpa [hb] using h
      rw [if_pos hb, ih ht]
      have htne : t ≠ [] := by
        intro e; exact ht (by simp [e, List.dropWhile])
      cases t with
      | nil => exact absurd rfl htne
      | cons c t' => rw [List.getLast?_cons_cons]
    · rw [if_neg hb]

/-- A list whose first element (if any) fails the predicate is unchanged by
`dropWhile`. -/
theorem dropWhile_eq_self_of_head {α} (p : α → Bool) (l : List α)
    (h : ∀ a, l.head? = some a → p a = false) : l.dropWhile p = l := by
  cases l with
  | nil => rfl
  | cons b t => rw [List.dropWhile_cons, if_neg]; simp [h b rfl]

/-- The first character of a trimmed string is not whitespace. -/
theorem jsTrim_head_false (s : Str) (a : Char)
    (h : (jsTrim s).head? = some a) : isWS a = false := by
  rw [jsTrim, List.head?_reverse] at h
  by_cases he : (s.dropWhile isWS).reverse.dropWhile isWS = []
  · rw [he] at h; simp at h
  · rw [getLast_dropWhile isWS _ he, List.getLast?_reverse] at h
    exact head_dropWhile_false isWS _ a h

/-- The last character of a trimmed string is not whitespace. -/
theorem jsTrim_getLast_false (s : Str) (a : Char)
    (h : (jsTrim s).getLast? = some a) : isWS a = false := by
  rw [jsTrim, List.getLast?_reverse] at h
  exact head_dropWhile_false isWS _ a h

/-- A string with no whitespace at either end is its own trim. -/
theorem jsTrim_eq_self (s : Str)
    (h1 : ∀ a, s.head? = some a → isWS a = false)
    (h2 : ∀ a, s.getLast? = some a → isWS a = false) : jsTrim s = s := by
  rw [jsTrim, dropWhile_eq_self_of_head _ _ h1,
    dropWhile_eq_self_of_head _ _ (fun a ha => h2 a (by rwa [List.head?_reverse] at ha)),
    List.reverse_reverse]

/-- Trimming is idempotent. -/
theorem jsTrim_idem (s : Str) : jsTrim (jsTrim s) = jsTrim s :=
  jsTrim_eq_self _ (jsTrim_head_false s) (jsTrim_getLast_false s)

/-- The trim of the empty string is empty. -/
theorem jsTrim_nil : jsTrim ([] : Str) = [] := rfl

/-- Every string occurs at its own start. -/
theorem leadsWith_append (p x : Str) : leadsWith p (p ++ x) = true := by
  induction p with
  | nil => rfl
  | cons a p ih => simpa [leadsWith] using ih

/-! ## Claim C1: `withRetry` on an always-failing operation -/

/-- The retry loop on an always-failing operation: with `fuel` iterations
left and the loop bound equal to the index of the last permitted attempt,
it re-raises the error of that last attempt after `fuel` further
invocations. -/
theorem withRetryGo_allFail (fn : Nat → Except ε α) (errf : Nat → ε)
    (h : ∀ i, fn i = Except.error (errf i)) :
    ∀ (fuel attempt : Nat) (m : Int), 1 ≤ fuel → m = ((attempt + fuel - 1 : Nat) : Int) →
      withRetryGo fn m attempt fuel = (RetryOutcome.raised (errf (attempt + fuel - 1)), fuel) := by
  intro fuel
  induction fuel with
  | zero => intro attempt m h1 _; omega
  | succ f ih =>
    intro attempt m _ hm
    cases f with
    | zero =>
      have ha : (attempt : Int) = m := by omega
      have e1 : attempt + (0 + 1) - 1 = attempt := by omega
      simp [withRetryGo, h, ha, e1]
    | succ f' =>
      have hne : ¬ ((attempt : Int) = m) := by omega
      have ihh := ih (attempt + 1) m (by omega) (by omega)
      have e1 : attempt + 1 + (f' + 1) - 1 = attempt + (f' + 1 + 1) - 1 := by omega
      rw [e1] at ihh
      obtain ⟨g, hg⟩ : ∃ g, f' + 1 = g := ⟨f' + 1, rfl⟩
      rw [hg] at ihh ⊢
      simp [withRetryGo, h, hne, ihh]

/-- Claim C1: for an operation that fails on every attempt and any
`maxRetries ≥ 1`, `withRetry` invokes the operation exactly `maxRetries`
times and re-raises the error produced by the last attempt itself (outcome
`RetryOutcome.raised` carrying exactly that error, not a wrapper). -/
theorem withRetry_allFail_exhausts (fn : Nat → Except ε α) (errf : Nat → ε)
    (h : ∀ i, fn i = Except.error (errf i)) (m : Int) (hm : 1 ≤ m) :
    withRetry fn m = (RetryOutcome.raised (errf m.toNat), m.toNat) := by
  have h1 : 1 ≤ m.toNat := by omega
  have := withRetryGo_allFail fn errf h m.toNat 1 m h1 (by omega)
  rw [withRetry, this]
  have : 1 + m.toNat - 1 = m.toNat := by omega
  rw [this]

/-- Witness for C1: with `maxRetries = 2` and an operation that fails with
its attempt number, the call raises the error of attempt 2 after exactly 2
invocations. -/
theorem withRetry_allFail_exhausts_witness :
    withRetry (fun i => (Except.error i : Except Nat Nat)) 2
      = (RetryOutcome.raised 2, 2) :=
  withRetry_allFail_exhausts (fun i => Except.error i) (fun i => i)
    (fun _ => rfl) 2 (by decide)

/-! ## Claim C10: `withRetry` with a non-positive budget -/

/-- Claim C10: for `maxRetries ≤ 0` the attempt loop never runs, the
operation is never invoked (count 0), and the trailing `throw lastError`
raises the still-undefined `lastError` rather than any operation error. -/
theorem withRetry_nonpositive (fn : Nat → Except ε α) (m : Int) (hm : m ≤ 0) :
    withRetry fn m = (RetryOutcome.raisedUndefined, 0) := by
  have h0 : m.toNat = 0 := by omega
  rw [withRetry, h0]
  rfl

/-- Witness for C10 at `maxRetries = -1`. -/
theorem withRetry_nonpositive_witness :
    withRetry (fun i => (Except.error i : Except Nat Nat)) (-1)
      = (RetryOutcome.raisedUndefined, 0) :=
  withRetry_nonpositive _ (-1) (by decide)

/-! ## Claim C6: permissive-empty `validateAndSanitizeText` -/

/-- Claim C6: for every sanitizer and maximum length, non-string input and
the empty string are both valid with `sanitized` equal to the empty string
(the variant in `src/utils/validation.ts`, the one the components and the
test suite import). -/
theorem validateAndSanitizeText_permissiveEmpty (sanitize : Str → Str) (maxLength : Nat) :
    validateAndSanitizeText sanitize maxLength none = ⟨true, none, some []⟩ ∧
    validateAndSanitizeText sanitize maxLength (some []) = ⟨true, none, some []⟩ :=
  ⟨rfl, rfl⟩

/-! ## Claim C2: the RateLimiter sliding window -/

/-- Running events does not change `maxAttempts`. -/
theorem runEvents_maxAttempts (events : List RLEvent) :
    ∀ rl : RateLimiter, (runEvents rl events).maxAttempts = rl.maxAttempts := by
  induction events with
  | nil => intro rl; rfl
  | cons e rest ih =>
    intro rl
    cases e with
    | record k t => exact ih (rl.recordAttempt k t)
    | check k t => exact ih (rl.isAllowed k t).2

/-- Running events does not change `windowMs`. -/
theorem runEvents_windowMs (events : List RLEvent) :
    ∀ rl : RateLimiter, (runEvents rl events).windowMs = rl.windowMs := by
  induction events with
  | nil => intro rl; rfl
  | cons e rest ih =>
    intro rl
    cases e with
    | record k t => exact ih (rl.recordAttempt k t)
    | check k t => exact ih (rl.isAllowed k t).2

/-- The method `recordAttempt` keeps the window parameter. -/
theorem recordAttempt_windowMs (rl : RateLimiter) (k : String) (t : Int) :
    (rl.recordAttempt k t).windowMs = rl.windowMs := rfl

/-- The state updated by `isAllowed` keeps the window parameter. -/
theorem isAllowed_windowMs (rl : RateLimiter) (k : String) (t : Int) :
    ((rl.isAllowed k t).2).windowMs = rl.windowMs := rfl

/-- The method `recordAttempt` appends the timestamp to its own key's list. -/
theorem recordAttempt_attempts_self (rl : RateLimiter) (k : String) (t : Int) :
    (rl.recordAttempt k t).attempts k = rl.attempts k ++ [t] := by
  simp [RateLimiter.recordAttempt]

/-- The method `recordAttempt` leaves other keys' lists alone. -/
theorem recordAttempt_attempts_other (rl : RateLimiter) (k : String) (t : Int)
    (k' : String) (h : k' ≠ k) :
    (rl.recordAttempt k t).attempts k' = rl.attempts k' := by
  simp [RateLimiter.recordAttempt, h]

/-- The method `isAllowed` stores back the window-filtered list for its own key. -/
theorem isAllowed_attempts_self (rl : RateLimiter) (k : String) (t : Int) :
    ((rl.isAllowed k t).2).attempts k
      = (rl.attempts k).filter (fun s => decide (t - s < rl.windowMs)) := by
  simp [RateLimiter.isAllowed]

/-- The method `isAllowed` leaves other keys' lists alone. -/
theorem isAllowed_attempts_other (rl : RateLimiter) (k : String) (t : Int)
    (k' : String) (h : k' ≠ k) :
    ((rl.isAllowed k t).2).attempts k' = rl.attempts k' := by
  simp [RateLimiter.isAllowed, h]

/-- The purging performed by past `isAllowed` calls is invisible to any
later window: as long as every intermediate check happened no later than
`now`, the stored timestamps for a key, filtered by the window at `now`,
are exactly the recorded timestamps so filtered. -/
theorem runEvents_filter (key : String) (now : Int) :
    ∀ (events : List RLEvent) (rl : RateLimiter),
      (∀ e ∈ events, e.isCheck = true → e.time ≤ now) →
      ((runEvents rl events).attempts key).filter
          (fun t => decide (now - t < rl.windowMs))
        = (rl.attempts key ++ recordedTimes key events).filter
            (fun t => decide (now - t < rl.windowMs)) := by
  intro events
  induction events with
  | nil => intro rl _; simp [runEvents, recordedTimes]
  | cons e rest ih =>
    intro rl hpast
    have hrest : ∀ e ∈ rest, e.isCheck = true → e.time ≤ now :=
      fun e he => hpast e (List.mem_cons_of_mem _ he)
    cases e with
    | record k t =>
      have h1 := ih (rl.recordAttempt k t) hrest
      simp only [recordAttempt_windowMs] at h1
      rw [runEvents] at *
      rw [h1, recordedTimes]
      by_cases hk : k = key
      · subst hk
        rw [recordAttempt_attempts_self, if_pos rfl]
        simp
      · rw [recordAttempt_attempts_other rl k t key (Ne.symm hk), if_neg hk]
    | check k t =>
      have htle : t ≤ now := hpast (RLEvent.check k t) (List.mem_cons_self _ _) rfl
      have h1 := ih (rl.isAllowed k t).2 hrest
      simp only [isAllowed_windowMs] at h1
      rw [runEvents] at *
      rw [h1, recordedTimes, List.filter_append, List.filter_append]
      by_cases hk : k = key
      · subst hk
        rw [isAllowed_attempts_self, List.filter_filter]
        congr 1
        refine List.filter_congr ?_
        intro s _
        by_cases hs : now - s < rl.windowMs
        · have ht2 : t - s < rl.windowMs := by omega
          simp [hs, ht2]
        · simp [hs]
      · rw [isAllowed_attempts_other rl k t key (Ne.symm hk)]

/-- Claim C2: for every parameter pair, every sequence of `recordAttempt`
and `isAllowed` calls whose `isAllowed` calls happen no later than the final
query time `now`, the final `isAllowed(key)` returns `true` iff the number
of attempts recorded for that key that are strictly less than `windowMs`
old at `now` is below `maxAttempts`. -/
theorem rateLimiter_isAllowed_iff (maxA : Nat) (w : Int) (events : List RLEvent)
    (key : String) (now : Int)
    (hpast : ∀ e ∈ events, e.isCheck = true → e.time ≤ now) :
    (((runEvents (mkRateLimiter maxA w) events).isAllowed key now).1 = true)
      ↔ ((recordedTimes key events).filter (fun t => decide (now - t < w))).length
          < maxA := by
  have hw := runEvents_windowMs events (mkRateLimiter maxA w)
  have hm := runEvents_maxAttempts events (mkRateLimiter maxA w)
  have hf := runEvents_filter key now events (mkRateLimiter maxA w) hpast
  rw [RateLimiter.isAllowed]
  simp only [hw, hm] at *
  rw [hf]
  simp [mkRateLimiter]

/-- Witness for C2, the spec's concrete scenario: `maxAttempts = 2`,
`windowMs = 1000`, two attempts for key `k` at times 0 and 500.  At time
600 (both inside the window) `isAllowed` is `false`; at time 1600 (window
elapsed) it is `true` again. -/
theorem rateLimiter_isAllowed_iff_witness :
    ((runEvents (mkRateLimiter 2 1000)
        [RLEvent.record "k" 0, RLEvent.record "k" 500]).isAllowed "k" 600).1 = false ∧
    ((runEvents (mkRateLimiter 2 1000)
        [RLEvent.record "k" 0, RLEvent.record "k" 500]).isAllowed "k" 1600).1 = true := by
  constructor
  · have h := rateLimiter_isAllowed_iff 2 1000
      [RLEvent.record "k" 0, RLEvent.record "k" 500] "k" 600 (by decide)
    by_contra hb
    simp only [Bool.not_eq_false] at hb
    exact absurd (h.mp hb) (by decide)
  · have h := rateLimiter_isAllowed_iff 2 1000
      [RLEvent.record "k" 0, RLEvent.record "k" 500] "k" 1600 (by decide)
    exact h.mpr (by decide)

/-! ## Claims C3, C4, C5: `validateUrl` -/

set_option maxRecDepth 4096

/-- A constant list with a positive count is nonempty. -/
theorem replicate_ne_nil (a : Char) (n : Nat) (h : n ≠ 0) :
    List.replicate n a ≠ [] := by
  intro e
  have hl := congrArg List.length e
  simp at hl
  exact h hl

/-- Applying `dropWhile` to a constant list leaves it alone when its element fails `p`. -/
theorem dropWhile_replicate_neg (p : Char → Bool) (a : Char) (h : p a = false) (n : Nat) :
    (List.replicate n a).dropWhile p = List.replicate n a := by
  cases n with
  | zero => rfl
  | succ m => rw [List.replicate_succ, List.dropWhile_cons, if_neg (by simp [h])]

/-- Applying `dropWhile` consumes all of a constant list whose element passes `p`. -/
theorem dropWhile_replicate_pos (p : Char → Bool) (a : Char) (h : p a = true) :
    ∀ n, (List.replicate n a).dropWhile p = [] := by
  intro n
  induction n with
  | zero => rfl
  | succ m ih => rw [List.replicate_succ, List.dropWhile_cons, if_pos h, ih]

/-- Trimming a constant non-whitespace list is the identity. -/
theorem jsTrim_replicate (a : Char) (h : isWS a = false) (n : Nat) :
    jsTrim (List.replicate n a) = List.replicate n a := by
  rw [jsTrim, dropWhile_replicate_neg _ _ h, List.reverse_replicate,
    dropWhile_replicate_neg _ _ h, List.reverse_replicate]

/-- Trimming a constant whitespace list gives the empty string. -/
theorem jsTrim_replicate_ws (a : Char) (h : isWS a = true) (n : Nat) :
    jsTrim (List.replicate n a) = [] := by
  rw [jsTrim, dropWhile_replicate_pos _ _ h]
  rfl

/-- Applying `takeWhile` is the identity on a list all of whose elements pass. -/
theorem takeWhile_all {p : Char → Bool} :
    ∀ l : Str, l.all p = true → l.takeWhile p = l := by
  intro l
  induction l with
  | nil => intro _; rfl
  | cons a t ih =>
    intro h
    simp only [List.all_cons, Bool.and_eq_true] at h
    rw [List.takeWhile_cons, if_pos h.1, ih h.2]

/-- The parser `modelParse` accepts `https://` followed by any nonempty host made of
host characters, yielding protocol `https:` and that host. -/
theorem modelParse_https (r : Str) (hr : r ≠ [])
    (hall : r.all isHostChar = true) :
    modelParse (str "https://" ++ r) = some ⟨str "https:", r⟩ := by
  have h1 : (str "https://" ++ r).takeWhile (fun c => c != ':') = str "https" := rfl
  simp only [modelParse]
  rw [h1]
  rw [if_neg (show ¬ ((str "https" : Str) = []) by decide)]
  rw [if_neg (show ¬ ((!((str "https" : Str).all isAsciiAlpha)) = true) by decide)]
  have h2 : (str "https://" ++ r).drop (str "https" : Str).length = ':' :: '/' :: '/' :: r := rfl
  rw [h2]
  show (if r.takeWhile isHostChar = [] then none
    else some ⟨lowerStr (str "https") ++ [':'], r.takeWhile isHostChar⟩ : Option URLObj)
      = some ⟨str "https:", r⟩
  rw [takeWhile_all r hall, if_neg hr]
  rfl

/-- The success path of the core validator, given that every guard passes. -/
theorem validateUrlCore_valid (P : URLParser) (prod : Bool) (t : Str) (u : URLObj)
    (h0 : t ≠ []) (h1 : t.length ≤ 2048)
    (h3 : P (normalizeUrl t) = some u)
    (h4 : u.protocol = str "http:" ∨ u.protocol = str "https:")
    (h5 : (isPrivateHost (lowerStr u.hostname) && prod) = false) :
    validateUrlCore P prod t = ⟨true, none, some (normalizeUrl t)⟩ := by
  have hl : ¬ (t.length = 0) := by
    simpa using (List.length_pos.mpr h0).ne'
  have hl2 : ¬ (2048 < t.length) := by omega
  have hprot : ¬ (u.protocol ≠ str "http:" ∧ u.protocol ≠ str "https:") := by
    rcases h4 with h | h <;> simp [h]
  rw [validateUrlCore, if_neg hl, if_neg hl2, h3]
  simp [hprot, h5]

/-- Inversion of a successful `validateUrlCore` run: every guard passed and
the sanitized value is the normalized input. -/
theorem validateUrlCore_inv (P : URLParser) (prod : Bool) (t : Str) (out : Str)
    (h : validateUrlCore P prod t = ⟨true, none, some out⟩) :
    out = normalizeUrl t ∧ t ≠ [] ∧ t.length ≤ 2048 ∧
      ∃ u, P (normalizeUrl t) = some u ∧
        (u.protocol = str "http:" ∨ u.protocol = str "https:") ∧
        (isPrivateHost (lowerStr u.hostname) && prod) = false := by
  rw [validateUrlCore] at h
  split at h
  · exact absurd h (by simp)
  next hlen =>
    split at h
    · exact absurd h (by simp)
    next hlen2 =>
      split at h
      next hP => exact absurd h (by simp)
      next u hP =>
        split at h
        · exact absurd h (by simp)
        next hprot =>
          split at h
          · exact absurd h (by simp)
          next hpriv =>
            have hout : out = normalizeUrl t := by
              have hc := congrArg ValidationResult.sanitized h
              simpa using hc.symm
            refine ⟨hout, ?_, by omega, u, hP, ?_, ?_⟩
            · intro e
              exact hlen (by simp [e])
            · by_cases hp1 : u.protocol = str "http:"
              · exact Or.inl hp1
              · by_cases hp2 : u.protocol = str "https:"
                · exact Or.inr hp2
                · exact absurd ⟨hp1, hp2⟩ hprot
            · simpa using hpriv

/-- A scheme-less string, once prefixed with `https://`, has the scheme. -/
theorem hasHttpScheme_prepend (t : Str) :
    hasHttpScheme (str "https://" ++ t) = true := by
  rw [hasHttpScheme]
  have hmap : lowerStr (str "https://" ++ t) = str "https://" ++ lowerStr t := by
    rw [lowerStr, List.map_append]
    congr 1
  rw [hmap, leadsWith_append]
  simp

/-- Claim C3 (amended): for every input whose trimmed form is nonempty, at
most 2048 characters long and does not start with `http://`/`https://`
case-insensitively (including inputs carrying another scheme, such as
`ftp://host`), `validateUrl` parses the string `https://` + trimmed input;
when that parse succeeds (necessarily with an http(s) protocol) and the
production private-host rejection does not fire, the sanitized output is
exactly `https://` + trimmed input.  The un-amended claim fails for trimmed
inputs longer than 2048 characters, which are rejected before
normalization. -/
theorem validateUrl_prependsHttps (P : URLParser) (prod : Bool) (s : Str) (u : URLObj)
    (h0 : jsTrim s ≠ [])
    (h1 : (jsTrim s).length ≤ 2048)
    (h2 : hasHttpScheme (jsTrim s) = false)
    (h3 : P (str "https://" ++ jsTrim s) = some u)
    (h4 : u.protocol = str "http:" ∨ u.protocol = str "https:")
    (h5 : (isPrivateHost (lowerStr u.hostname) && prod) = false) :
    validateUrl P prod (some s) = ⟨true, none, some (str "https://" ++ jsTrim s)⟩ := by
  have hs : s ≠ [] := by
    intro e
    exact h0 (by simp [e, jsTrim_nil])
  have hnorm : normalizeUrl (jsTrim s) = str "https://" ++ jsTrim s := by
    rw [normalizeUrl, h2]
    simp
  rw [validateUrl, if_neg hs, ← hnorm]
  exact validateUrlCore_valid P prod _ u h0 h1 (by rwa [hnorm]) h4 h5

/-- Witness for C3 at the claim's own quirk input `ftp://host`: the string
is re-prefixed rather than rejected, and the sanitized output is
`https://ftp://host`. -/
theorem validateUrl_prependsHttps_witness :
    validateUrl modelParse false (some (str "ftp://host"))
      = ⟨true, none, some (str "https://" ++ jsTrim (str "ftp://host"))⟩ :=
  validateUrl_prependsHttps modelParse false _ ⟨str "https:", str "ftp"⟩
    (by decide) (by decide) (by decide) (by decide) (by decide) (by decide)

/-- Shared helper: any string whose trimmed length exceeds 2048 is rejected
with the too-long error. -/
theorem validateUrl_tooLong_aux (P : URLParser) (prod : Bool) (s : Str)
    (h : 2048 < (jsTrim s).length) :
    validateUrl P prod (some s)
      = ⟨false, some (str "URL is too long (max 2048 characters)"), none⟩ := by
  have hs : s ≠ [] := by
    intro e
    rw [e, jsTrim_nil] at h
    simp at h
  have hl : ¬ ((jsTrim s).length = 0) := by omega
  rw [validateUrl, if_neg hs, validateUrlCore, if_neg hl, if_pos h]

/-- Counterexample to C3 as stated: a 2049-character scheme-less string
whose prefixed form parses fine is nevertheless rejected with the length
error, so no sanitized value is produced at all. -/
theorem validateUrl_prependsHttps_counterexample :
    hasHttpScheme (jsTrim (List.replicate 2049 'b')) = false ∧
    (modelParse (str "https://" ++ jsTrim (List.replicate 2049 'b'))).isSome = true ∧
    validateUrl modelParse false (some (List.replicate 2049 'b'))
      = ⟨false, some (str "URL is too long (max 2048 characters)"), none⟩ := by
  have hj : jsTrim (List.replicate 2049 'b') = List.replicate 2049 'b' :=
    jsTrim_replicate 'b' (by decide) 2049
  refine ⟨?_, ?_, ?_⟩
  · rw [hj]
    rfl
  · rw [hj, modelParse_https _ (replicate_ne_nil 'b' 2049 (by omega))
      (by rw [List.all_replicate]; decide)]
    rfl
  · exact validateUrl_tooLong_aux modelParse false _
      (by rw [hj, List.length_replicate]; omega)

/-- Claim C4 (amended): for every string whose TRIMMED length exceeds 2048,
`validateUrl` fails with the too-long error, for every parser and mode.
The un-amended claim (raw length > 2048) fails on whitespace padding. -/
theorem validateUrl_tooLong (P : URLParser) (prod : Bool) (s : Str)
    (h : 2048 < (jsTrim s).length) :
    validateUrl P prod (some s)
      = ⟨false, some (str "URL is too long (max 2048 characters)"), none⟩ :=
  validateUrl_tooLong_aux P prod s h

/-- Witness for C4 at a 2049-character string of `a`s. -/
theorem validateUrl_tooLong_witness :
    2048 < (jsTrim (List.replicate 2049 'a')).length ∧
    validateUrl modelParse false (some (List.replicate 2049 'a'))
      = ⟨false, some (str "URL is too long (max 2048 characters)"), none⟩ := by
  have hlen : 2048 < (jsTrim (List.replicate 2049 'a')).length := by
    rw [jsTrim_replicate 'a' (by decide) 2049, List.length_replicate]
    omega
  exact ⟨hlen, validateUrl_tooLong modelParse false _ hlen⟩

/-- Counterexample to C4 as stated: 2049 spaces have raw length > 2048 yet
are rejected with the emptiness error, not the length error. -/
theorem validateUrl_tooLong_counterexample :
    2048 < (List.replicate 2049 ' ').length ∧
    validateUrl modelParse false (some (List.replicate 2049 ' '))
      = ⟨false, some (str "URL cannot be empty"), none⟩ ∧
    str "URL cannot be empty" ≠ str "URL is too long (max 2048 characters)" := by
  refine ⟨by rw [List.length_replicate]; omega, ?_, by decide⟩
  rw [validateUrl, if_neg (replicate_ne_nil ' ' 2049 (by omega)),
    jsTrim_replicate_ws ' ' (by decide) 2049, validateUrlCore]
  rfl

/-- Claim C5 (amended): for every input on which `validateUrl` succeeds
with sanitized value `out`, if `out` itself is at most 2048 characters then
re-validating `out` succeeds with the same sanitized value.  The length
side-condition is forced: prefixing `https://` can push an accepted input
past the 2048 limit, and the re-run then fails the length check. -/
theorem validateUrl_roundTrip (P : URLParser) (prod : Bool) (s out : Str)
    (h : validateUrl P prod (some s) = ⟨true, none, some out⟩)
    (hlen : out.length ≤ 2048) :
    validateUrl P prod (some out) = ⟨true, none, some out⟩ := by
  rw [validateUrl] at h
  by_cases hs : s = []
  · rw [if_pos hs] at h
    exact absurd h (by simp)
  rw [if_neg hs] at h
  obtain ⟨hout, ht0, _, u, hP, hprot, hpriv⟩ := validateUrlCore_inv _ _ _ _ h
  have hsch : hasHttpScheme out = true := by
    rw [hout, normalizeUrl]
    by_cases hh : hasHttpScheme (jsTrim s) = true
    · rw [if_pos hh]
      exact hh
    · rw [if_neg hh]
      exact hasHttpScheme_prepend _
  have hne : out ≠ [] := by
    rw [hout, normalizeUrl]
    split
    · exact ht0
    · exact List.append_ne_nil_of_left_ne_nil (by decide) _
  have htrim : jsTrim out = out := by
    rw [hout, normalizeUrl]
    split
    · exact jsTrim_idem s
    · apply jsTrim_eq_self
      · intro a ha
        rw [show (str "https://" ++ jsTrim s).head? = some 'h' from rfl] at ha
        cases ha
        decide
      · intro a ha
        rw [List.getLast?_append] at ha
        cases hgl : (jsTrim s).getLast? with
        | none =>
          rw [List.getLast?_eq_none_iff] at hgl
          exact absurd hgl ht0
        | some b =>
          rw [hgl, Option.or_some] at ha
          injection ha with hba
          rw [← hba]
          exact jsTrim_getLast_false s b hgl
  have hnorm2 : normalizeUrl out = out := by
    rw [normalizeUrl, if_pos hsch]
  have hv := validateUrlCore_valid P prod out u hne hlen
    (by rw [hnorm2, hout]; exact hP) hprot hpriv
  rw [hnorm2] at hv
  rw [validateUrl, if_neg hne, htrim]
  exact hv

/-- Witness for C5: `example.com` validates to `https://example.com`
(19 characters, within the limit), and re-validating that output returns
the same sanitized value. -/
theorem validateUrl_roundTrip_witness :
    validateUrl modelParse false (some (str "example.com"))
      = ⟨true, none, some (str "https://example.com")⟩ ∧
    validateUrl modelParse false (some (str "https://example.com"))
      = ⟨true, none, some (str "https://example.com")⟩ :=
  ⟨by decide,
   validateUrl_roundTrip modelParse false (str "example.com") _ (by decide) (by decide)⟩

/-- Counterexample to C5 as stated: 2041 `a`s validate to a 2049-character
sanitized value, and re-validating that value fails with the length error
instead of returning it unchanged. -/
theorem validateUrl_roundTrip_counterexample :
    validateUrl modelParse false (some (List.replicate 2041 'a'))
      = ⟨true, none, some (str "https://" ++ List.replicate 2041 'a')⟩ ∧
    validateUrl modelParse false (some (str "https://" ++ List.replicate 2041 'a'))
      = ⟨false, some (str "URL is too long (max 2048 characters)"), none⟩ := by
  have hj : jsTrim (List.replicate 2041 'a') = List.replicate 2041 'a' :=
    jsTrim_replicate 'a' (by decide) 2041
  constructor
  · have hnorm : normalizeUrl (List.replicate 2041 'a')
        = str "https://" ++ List.replicate 2041 'a' := by
      rw [normalizeUrl, if_neg ?_]
      rw [show hasHttpScheme (List.replicate 2041 'a') = false from rfl]
      simp
    have hP : modelParse (normalizeUrl (List.replicate 2041 'a'))
        = some ⟨str "https:", List.replicate 2041 'a'⟩ := by
      rw [hnorm]
      exact modelParse_https _ (replicate_ne_nil 'a' 2041 (by omega))
        (by rw [List.all_replicate]; decide)
    have hv := validateUrlCore_valid modelParse false (List.replicate 2041 'a')
      ⟨str "https:", List.replicate 2041 'a'⟩
      (replicate_ne_nil 'a' 2041 (by omega))
      (by rw [List.length_replicate]; omega)
      hP (Or.inr rfl) (Bool.and_false _)
    rw [validateUrl, if_neg (replicate_ne_nil 'a' 2041 (by omega)), hj, hv, hnorm]
  · apply validateUrl_tooLong_aux
    have heq : jsTrim (str "https://" ++ List.replicate 2041 'a')
        = str "https://" ++ List.replicate 2041 'a' := by
      apply jsTrim_eq_self
      · intro a ha
        rw [show (str "https://" ++ List.replicate 2041 'a').head? = some 'h' from rfl] at ha
        cases ha
        decide
      · intro a ha
        rw [List.getLast?_append,
          show (List.replicate 2041 'a').getLast? = some 'a' from
            by rw [List.getLast?_replicate]; simp,
          Option.or_some] at ha
        cases ha
        decide
    rw [heq, List.length_append, List.length_replicate,
      show (str "https://" : Str).length = 8 from rfl]
    omega

/-! ## Claims C7, C8: the summarizer -/

/-- Appending the final period adds at most one character. -/
theorem finalizeSummary_length (s : Str) :
    (finalizeSummary s).length ≤ s.length + 1 := by
  rw [finalizeSummary]
  split
  · simp
  · simp

/-- Once the summary is nonempty, the greedy loop never grows it beyond
`SUMMARY_MAX_LENGTH` except by keeping what it already has. -/
theorem accumulateSentences_length_le :
    ∀ (rest : List Str) (summary : Str) (count : Nat), summary ≠ [] →
      (accumulateSentences rest summary count).length
        ≤ max summary.length SUMMARY_MAX_LENGTH := by
  intro rest
  induction rest with
  | nil =>
    intro summary count _
    rw [accumulateSentences]
    omega
  | cons s rest ih =>
    intro summary count hne
    rw [accumulateSentences]
    simp only [hne, SUMMARY_MAX_LENGTH, and_true, if_false, ite_false, ne_eq,
      not_false_eq_true]
    split_ifs with h1 h2
    · omega
    · omega
    · have hpot : (summary ++ str ". " ++ s) ≠ [] := by
        intro e
        simp at e
        exact hne e.1
      have hih := ih (summary ++ str ". " ++ s) (count + 1) hpot
      simp only [SUMMARY_MAX_LENGTH] at hih
      omega

/-- Claim C7 (amended): whenever the summarizer succeeds, the output length
is at most `max SUMMARY_MAX_LENGTH L + 1`, where `L` is the length of the
first qualifying sentence.  The unconditional 500-character bound of the
claim fails when that first sentence is itself longer than 500 characters,
because the loop always admits the first sentence. -/
theorem generateSummary_length_bound (content out : Str)
    (h : generateSummary content = Except.ok out) :
    out.length ≤ max SUMMARY_MAX_LENGTH ((sentencesOf content).headD []).length + 1 := by
  simp only [generateSummary] at h
  split at h
  · exact absurd h (by simp)
  split at h
  · exact absurd h (by simp)
  split at h
  next hsent =>
    injection h with hout
    rw [← hout]
    rw [List.length_append, show (str "..." : Str).length = 3 from rfl]
    have htk : ((cleanOf content).take (min 200 (cleanOf content).length)).length ≤ 200 := by
      rw [List.length_take]
      omega
    have hmax : SUMMARY_MAX_LENGTH = 500 := rfl
    omega
  next hsent =>
    injection h with hout
    rw [← hout]
    obtain ⟨s1, rest, hsr⟩ : ∃ s1 rest, sentencesOf content = s1 :: rest := by
      cases hs : sentencesOf content with
      | nil => exact absurd hs hsent
      | cons a t => exact ⟨a, t, rfl⟩
    rw [hsr]
    have hs1ne : s1 ≠ [] := by
      have hmem : s1 ∈ sentencesOf content := by
        rw [hsr]
        exact List.mem_cons_self _ _
      rw [sentencesOf] at hmem
      have h10 := (List.mem_filter.mp hmem).2
      intro e
      rw [e] at h10
      simp at h10
    have hstep : accumulateSentences (s1 :: rest) [] 0 = accumulateSentences rest s1 1 := by
      rw [accumulateSentences]
      simp
    rw [hstep]
    have hb := accumulateSentences_length_le rest s1 1 hs1ne
    have hf := finalizeSummary_length (accumulateSentences rest s1 1)
    have hmax : SUMMARY_MAX_LENGTH = 500 := rfl
    simp only [List.headD_cons]
    omega

/-- Witness for C7: a one-sentence input summarizes to that sentence with a
period, within the amended bound. -/
theorem generateSummary_length_bound_witness :
    generateSummary (str "hello there everyone out there")
      = Except.ok (str "hello there everyone out there.") ∧
    (str "hello there everyone out there.").length
      ≤ max SUMMARY_MAX_LENGTH
          ((sentencesOf (str "hello there everyone out there")).headD []).length + 1 :=
  ⟨by decide, generateSummary_length_bound _ _ (by decide)⟩

/-- Counterexample to C7 as stated: 600 `a`s form a single 600-character
qualifying sentence, which the loop admits unconditionally; the output is
601 characters, over the configured 500-character maximum. -/
theorem generateSummary_length_bound_counterexample :
    generateSummary (List.replicate 600 'a')
      = Except.ok (List.replicate 600 'a' ++ ['.']) ∧
    SUMMARY_MAX_LENGTH < (List.replicate 600 'a' ++ ['.']).length := by
  constructor
  · decide
  · rw [List.length_append, List.length_replicate]
    decide

/-- Claim C8 (amended): when NO qualifying sentence survives filtering (the
code tests `sentences.length === 0`, not `< 2`), the summarizer returns the
first `min(200, length)` characters of the cleaned content followed by the
ellipsis marker. -/
theorem generateSummary_fallback (content : Str)
    (h0 : content ≠ [])
    (h1 : jsTrim ((collapseWS content).filter allowedChar) ≠ [])
    (h2 : sentencesOf content = []) :
    generateSummary content
      = Except.ok ((cleanOf content).take (min 200 (cleanOf content).length) ++ str "...") := by
  simp only [generateSummary]
  rw [if_neg h0, if_neg h1]
  simp [h2]

/-- Witness for C8: `"hi. ok!"` has no sentence longer than 10 characters,
so the fallback fires. -/
theorem generateSummary_fallback_witness :
    generateSummary (str "hi. ok!")
      = Except.ok ((cleanOf (str "hi. ok!")).take
          (min 200 (cleanOf (str "hi. ok!")).length) ++ str "...") :=
  generateSummary_fallback _ (by decide) (by decide) (by decide)

/-- Counterexample to C8 as stated: exactly ONE qualifying sentence is fewer
than 2, yet the summarizer does not fall back — it returns the sentence plus
a period, not the 200-character truncation with ellipsis. -/
theorem generateSummary_fallback_counterexample :
    (sentencesOf (str "hello wonderful world")).length < 2 ∧
    generateSummary (str "hello wonderful world")
      = Except.ok (str "hello wonderful world.") ∧
    str "hello wonderful world."
      ≠ (cleanOf (str "hello wonderful world")).take
          (min 200 (cleanOf (str "hello wonderful world")).length) ++ str "..." :=
  ⟨by decide, by decide, by decide⟩

/-! ## Claim C9: the edge function's failure responses -/

/-- Claim C9 (amended): every response that carries an error body has the
status derived from the message by the containment mapping (404 for
"not found", then 405 for "not allowed", then 400 for "Invalid", else 500);
the body carries a timestamp exactly on the `catch`-path (POST) responses —
the early method-rejection response carries the error message but NO
timestamp, which falsifies the unamended claim. -/
theorem handleRequest_failure (method : String) (outcome : HandlerOutcome) :
    ∀ b : ErrorBody, (handleRequest method outcome).body = some b →
      (handleRequest method outcome).status = statusForError b.message ∧
      b.hasTimestamp = decide (method = "POST") := by
  unfold handleRequest
  split_ifs with h1 h2
  · intro b hb
    exact absurd hb (by simp)
  · intro b hb
    simp only [Option.some.injEq] at hb
    rw [← hb]
    refine ⟨by decide, ?_⟩
    simp [h2]
  · cases outcome with
    | success s =>
      intro b hb
      exact absurd hb (by simp)
    | failure msg =>
      intro b hb
      simp only [Option.some.injEq] at hb
      rw [← hb]
      refine ⟨rfl, ?_⟩
      have hp : method = "POST" := not_not.mp h2
      simp [hp]

/-- Witness for C9: a POST whose processing throws `Bookmark not found`
yields 404 with the message and a timestamp. -/
theorem handleRequest_failure_witness :
    (handleRequest "POST" (HandlerOutcome.failure (str "Bookmark not found"))).status = 404 ∧
    (handleRequest "POST" (HandlerOutcome.failure (str "Bookmark not found"))).body
      = some ⟨str "Bookmark not found", true⟩ := by
  have h := handleRequest_failure "POST" (HandlerOutcome.failure (str "Bookmark not found"))
    ⟨str "Bookmark not found", true⟩ (by decide)
  refine ⟨?_, by decide⟩
  rw [h.1]
  decide

/-- Counterexample to C9 as stated: a GET request is a failure (405 with an
error body), and the mapping gives 405, but the body carries no timestamp. -/
theorem handleRequest_failure_counterexample :
    handleRequest "GET" (HandlerOutcome.success [])
      = ⟨405, some ⟨str "Method not allowed", false⟩⟩ ∧
    (handleRequest "GET" (HandlerOutcome.success [])).body.map ErrorBody.hasTimestamp
      = some false :=
  ⟨by decide, by decide⟩

end LinkSnap
